import Mathlib

/-!
Shallow embedding of the fdh-secops-data-pm-analytics osquery ingestion
pipeline (src/code/case_management_osquery_ingester.py), together with
proofs about its documented properties.

Strings are modelled as `List Char`; Python regular expressions over the
ASCII inputs used by the pipeline are modelled by specialised recursive
matchers that follow the backtracking behaviour of the specific patterns
appearing in the source (`SELECT\s+(.*?)\s+FROM`, `FROM\s+(\w+)`,
`CASE\s+WHEN(.+?)END`, `\bAS\b`, `\bAS\s+(\w+)` and the keyword-exclusion
alternation).  `\w` and `\s` are modelled with their ASCII semantics.
Python operations that can raise (list indexing) are modelled with
`Option`; `None` means the Python code would raise at that point.
-/

/-! ## Character and list utilities -/

def backslashChar : Char := Char.ofNat 92

def newlineChar : Char := Char.ofNat 10

def aposChar : Char := Char.ofNat 39

/-- ASCII model of the Python regex class `\s` (also `str.strip`'s default
whitespace set): space, tab, newline, carriage return, vertical tab, form feed. -/
def isWsChar (c : Char) : Bool :=
  c = ' ' || c = Char.ofNat 9 || c = Char.ofNat 10 || c = Char.ofNat 13 ||
  c = Char.ofNat 11 || c = Char.ofNat 12

/-- ASCII model of the Python regex class `\w`: letters, digits, underscore. -/
def isWordChar (c : Char) : Bool :=
  c.isAlpha || c.isDigit || c = '_'

/-- Case folding used for `re.IGNORECASE` matching (ASCII). -/
def lowerChar (c : Char) : Char := c.toLower

def lowerList (l : List Char) : List Char := l.map lowerChar

/-- `str.strip()`: drop leading and trailing whitespace. -/
def pyStrip (l : List Char) : List Char :=
  ((l.dropWhile isWsChar).reverse.dropWhile isWsChar).reverse

/-- Membership of a character in a string (Python `c in s`). -/
def containsChar (c : Char) (l : List Char) : Bool := l.any (· = c)

/-- `str.split(sep)` for a one-character separator: no collapsing of empty
fields, splosing at every occurrence. -/
def splitOnChar (c : Char) : List Char → List (List Char)
  | [] => [[]]
  | a :: rest =>
    let r := splitOnChar c rest
    if a = c then [] :: r
    else
      match r with
      | [] => [[a]]
      | h :: t => (a :: h) :: t

/-- Does `s` start with `needle` up to ASCII case folding? -/
def startsWithCI (needle s : List Char) : Bool :=
  match needle, s with
  | [], _ => true
  | _ :: _, [] => false
  | n :: ns, c :: cs => lowerChar c = lowerChar n && startsWithCI ns cs

/-- Case-insensitive substring search (model of `re.search` on a literal
with `re.IGNORECASE`, and of the alternation of literals). -/
def containsCI (needle : List Char) : List Char → Bool
  | [] => startsWithCI needle []
  | c :: cs => startsWithCI needle (c :: cs) || containsCI needle cs

/-- Does `s` start with `needle` exactly? -/
def startsWithExact (needle s : List Char) : Bool :=
  match needle, s with
  | [], _ => true
  | _ :: _, [] => false
  | n :: ns, c :: cs => c = n && startsWithExact ns cs

/-- Case-sensitive substring search (model of `target.find(search) != -1`). -/
def containsExact (needle : List Char) : List Char → Bool
  | [] => startsWithExact needle []
  | c :: cs => startsWithExact needle (c :: cs) || containsExact needle cs

/-- If `s` starts with `needle` up to case, return the rest of `s`. -/
def ciPrefixMatch (needle s : List Char) : Option (List Char) :=
  match needle, s with
  | [], rest => some rest
  | _ :: _, [] => none
  | n :: ns, c :: cs => if lowerChar c = lowerChar n then ciPrefixMatch ns cs else none

/-- If `s` starts with `needle` exactly, return the rest of `s`. -/
def exactPrefixMatch (needle s : List Char) : Option (List Char) :=
  match needle, s with
  | [], rest => some rest
  | _ :: _, [] => none
  | n :: ns, c :: cs => if c = n then exactPrefixMatch ns cs else none

/-- Length of the maximal whitespace prefix of `s`. -/
def wsPrefixLen (s : List Char) : Nat := (s.takeWhile isWsChar).length

/-! ## The regex matchers of `extract_attribute_names` / `extract_sql_details`

Each matcher mirrors the backtracking search of one concrete pattern in
the source. -/

/-- Match `\s+FROM` (IGNORECASE) at the head of `v`, returning the rest.
The greedy `\s+` must consume the whole whitespace run: consuming less
leaves a whitespace character where `F` is required, so the match is
deterministic. -/
def matchWsFromCI (v : List Char) : Option (List Char) :=
  let m := wsPrefixLen v
  if m = 0 then none else ciPrefixMatch "from".toList (v.drop m)

/-- The lazy `(.*?)\s+FROM` part: try the shortest capture first
(`acc` holds the reversed capture so far). -/
def lazyCaptureAux (acc : List Char) : List Char → Option (List Char × List Char)
  | [] =>
    match matchWsFromCI [] with
    | some rest => some (acc.reverse, rest)
    | none => none
  | c :: v' =>
    match matchWsFromCI (c :: v') with
    | some rest => some (acc.reverse, rest)
    | none => lazyCaptureAux (c :: acc) v'

/-- The greedy first `\s+` of `SELECT\s+(.*?)\s+FROM`: try consuming `j`
whitespace characters, longest first. -/
def tryWsSplits (j : Nat) (t : List Char) : Option (List Char × List Char) :=
  match j with
  | 0 => none
  | jj + 1 =>
    match lazyCaptureAux [] (t.drop (jj + 1)) with
    | some r => some r
    | none => tryWsSplits jj t

/-- Try to match `SELECT\s+(.*?)\s+FROM` (DOTALL, IGNORECASE) at the head
of `s`; on success return the capture and the rest of `s` after `FROM`. -/
def matchSelectFrom (s : List Char) : Option (List Char × List Char) :=
  match ciPrefixMatch "select".toList s with
  | none => none
  | some t => tryWsSplits (wsPrefixLen t) t

/-- `re.findall` for `SELECT\s+(.*?)\s+FROM`: scan left to right,
non-overlapping, resuming after each match.  `fuel` bounds the recursion;
every step consumes at least one character of the suffix, so `s.length`
fuel is always sufficient. -/
def scanSelectFrom (fuel : Nat) (s : List Char) : List (List Char) :=
  match fuel, s with
  | 0, _ => []
  | _, [] => []
  | fuel' + 1, c :: s' =>
    match matchSelectFrom (c :: s') with
    | some (cap, rest) => cap :: scanSelectFrom fuel' rest
    | none => scanSelectFrom fuel' s'

/-- Try to match `FROM\s+(\w+)` (IGNORECASE) at the head of `s`; on success
return the capture and the rest of `s`.  The greedy `\s+` and `\w+` are
deterministic here because a whitespace character is never a word
character. -/
def matchFromW (s : List Char) : Option (List Char × List Char) :=
  match ciPrefixMatch "from".toList s with
  | none => none
  | some t =>
    let m := wsPrefixLen t
    if m = 0 then none
    else
      let u := t.drop m
      let w := u.takeWhile isWordChar
      if w.isEmpty then none else some (w, u.drop w.length)

/-- `re.findall` for `FROM\s+(\w+)`. -/
def scanFromW (fuel : Nat) (s : List Char) : List (List Char) :=
  match fuel, s with
  | 0, _ => []
  | _, [] => []
  | fuel' + 1, c :: s' =>
    match matchFromW (c :: s') with
    | some (cap, rest) => cap :: scanFromW fuel' rest
    | none => scanFromW fuel' s'

/-- The lazy `(.+?)END` part of `CASE\s+WHEN(.+?)END` (case-sensitive):
consume at least one character, then stop at the earliest `END`. -/
def lazyBodyEnd (acc v : List Char) : Option (List Char × List Char) :=
  match v with
  | [] => none
  | c :: v' =>
    match exactPrefixMatch "END".toList v' with
    | some rest => some ((c :: acc).reverse, rest)
    | none => lazyBodyEnd (c :: acc) v'

/-- Try to match `CASE\s+WHEN(.+?)END` (DOTALL, case-sensitive — the source
compiles this pattern without `re.IGNORECASE`) at the head of `s`. -/
def matchCaseWhen (s : List Char) : Option (List Char × List Char) :=
  match exactPrefixMatch "CASE".toList s with
  | none => none
  | some t =>
    let m := wsPrefixLen t
    if m = 0 then none
    else
      match exactPrefixMatch "WHEN".toList (t.drop m) with
      | none => none
      | some u => lazyBodyEnd [] u

/-- `re.findall` for `CASE\s+WHEN(.+?)END`. -/
def scanCaseWhen (fuel : Nat) (s : List Char) : List (List Char) :=
  match fuel, s with
  | 0, _ => []
  | _, [] => []
  | fuel' + 1, c :: s' =>
    match matchCaseWhen (c :: s') with
    | some (cap, rest) => cap :: scanCaseWhen fuel' rest
    | none => scanCaseWhen fuel' s'

/-- Scan for `\bAS\b` (IGNORECASE): a case-insensitive `as` preceded and
followed by a non-word character or a string edge.  `prevWord` records
whether the character before the current position is a word character. -/
def searchASBoundary (prevWord : Bool) : List Char → Bool
  | [] => false
  | c :: cs =>
    (!prevWord && (lowerChar c = 'a') &&
      (match cs with
       | [] => false
       | d :: ds => lowerChar d = 's' && (match ds with
           | [] => true
           | e :: _ => !isWordChar e))) ||
    searchASBoundary (isWordChar c) cs

/-- Model of `re.search(r'\bAS\b', item, re.IGNORECASE)` as a Boolean. -/
def hasASKeyword (item : List Char) : Bool := searchASBoundary false item

/-- Scan for `\bAS\s+(\w+)` (IGNORECASE), returning the first capture. -/
def searchASAliasAux (prevWord : Bool) : List Char → Option (List Char)
  | [] => none
  | c :: cs =>
    let here : Option (List Char) :=
      if !prevWord && (lowerChar c = 'a') then
        match cs with
        | [] => none
        | d :: ds =>
          if lowerChar d = 's' then
            let m := wsPrefixLen ds
            if m = 0 then none
            else
              let u := ds.drop m
              let w := u.takeWhile isWordChar
              if w.isEmpty then none else some w
          else none
      else none
    match here with
    | some w => some w
    | none => searchASAliasAux (isWordChar c) cs

/-- Model of `re.search(r'\bAS\s+(\w+)', item, re.IGNORECASE)`. -/
def searchASAlias (item : List Char) : Option (List Char) := searchASAliasAux false item

/-- Model of `re.search(r'STRFTIME|JSON_EXTRACT|datetime\(', item, re.IGNORECASE)`. -/
def matchesExclusionSet (item : List Char) : Bool :=
  containsCI "strftime".toList item || containsCI "json_extract".toList item ||
  containsCI "datetime(".toList item

/-! ## `extract_attribute_names` and `extract_sql_details` -/

/-- The body of the inner loop of `extract_attribute_names`, for one
stripped comma-separated item.  Returns the (possibly empty) list of
attributes appended for this item, or `none` where the Python code would
raise (`item.split('.')[1]` out of bounds). -/
def attributeOfItem (item : List Char) : Option (List String) :=
  if containsChar '*' item then
    some ["* (all columns returned)"]
  else if hasASKeyword item then
    match searchASAlias item with
    | some w => some [String.mk w]
    | none => some []
  else if containsChar '.' item then
    match splitOnChar '.' item with
    | _ :: y :: _ => some [String.mk y]
    | _ => none
  else if matchesExclusionSet item then some []
  else some [String.mk item]

/-- The list of stripped comma-separated items of all `SELECT ... FROM`
segments of `sql`, in order. -/
def selectItems (sql : List Char) : List (List Char) :=
  (scanSelectFrom sql.length sql).flatMap fun seg =>
    (splitOnChar ',' seg).map pyStrip

/-- Sequence a fallible function over a list, propagating the first
failure (an uncaught Python exception aborts the whole loop). -/
def optionMapAll (f : α → Option β) : List α → Option (List β)
  | [] => some []
  | x :: xs =>
    match f x with
    | none => none
    | some y =>
      match optionMapAll f xs with
      | none => none
      | some ys => some (y :: ys)

/-- `extract_attribute_names` from the source: collect attributes over all
segments and items.  `none` models an uncaught Python exception. -/
def extract_attribute_names (sql : String) : Option (List String) :=
  (optionMapAll attributeOfItem (selectItems sql.toList)).map List.flatten

/-- `table_pattern.findall(sql_query)` for `FROM\s+(\w+)`. -/
def tables_queried_of (sql : String) : List String :=
  (scanFromW sql.toList.length sql.toList).map String.mk

/-- `case_pattern.findall(sql_query)` followed by the `description: ` build. -/
def new_attributes_of (sql : String) : List String :=
  (scanCaseWhen sql.toList.length sql.toList).map fun c =>
    String.mk ("description: ".toList ++ pyStrip c)

/-- `extract_sql_details` from the source: tables, extracted attributes and
case-description attributes.  `none` models an uncaught Python exception. -/
def extract_sql_details (sql : String) :
    Option (List String × List String × List String) :=
  match extract_attribute_names sql with
  | none => none
  | some attrs => some (tables_queried_of sql, attrs, new_attributes_of sql)

/-! ## Record data model and the per-column normalizer functions

The JSON decoding of the `Query` payload is external (`json.loads`), so a
record's payload is modelled by the outcome of that decoding: a null cell
(`pd.notnull` is false), a decode failure (`json.JSONDecodeError`), or a
decoded object with the optional fields the source reads. -/

structure CategoryJson where
  name : Option String
deriving Repr, DecidableEq

structure QueryJson where
  name : Option String
  command : Option String
  principalType : Option String
  queryId : Option String
  queryType : Option String
  categories : Option (List CategoryJson)
deriving Repr, DecidableEq

inductive QueryPayload where
  | nullValue
  | invalidJson
  | decoded (q : QueryJson)
deriving Repr, DecidableEq

def QueryPayload.isDecoded : QueryPayload → Bool
  | .decoded _ => true
  | _ => false

/-- One row of the combined case/query dataframe, with the dataset-level
columns read by the report assembler. `PossibleCases` holds the result of
`ast.literal_eval` on the list-encoded cases field (`none` = parse failure). -/
structure RawRecord where
  Query : QueryPayload
  PossibleCases : Option (List String)
  CustomerID : String
  Region : String
  CreatedAtUTC : String
deriving Repr, DecidableEq

/-- Python `value.replace('\\n', '\n')`: the two-character sequence
backslash–`n` becomes a newline character. -/
def replaceBackslashN : List Char → List Char
  | [] => []
  | [c] => [c]
  | c :: d :: rest =>
    if c = backslashChar && d = 'n' then newlineChar :: replaceBackslashN rest
    else c :: replaceBackslashN (d :: rest)

def extract_name : QueryPayload → String
  | .decoded q => q.name.getD "Unnamed"
  | _ => "Unnamed"

def extract_command : QueryPayload → String
  | .decoded q =>
    String.mk (('"' :: replaceBackslashN (q.command.getD "SQL statement not available").toList) ++ ['"'])
  | _ => "\"SQL statement not available\""

def extract_principal_type : QueryPayload → String
  | .decoded q => q.principalType.getD "Type not available"
  | _ => "Type not available"

def extract_query_id : QueryPayload → String
  | .decoded q => q.queryId.getD "ID not available"
  | _ => "ID not available"

def extract_query_type : QueryPayload → String
  | .decoded q => q.queryType.getD "Type not available"
  | _ => "Type not available"

/-- `', '.join(category.get('name','') for category in categories)`. -/
def joinCommaSpace : List String → String
  | [] => ""
  | [s] => s
  | s :: rest => s ++ ", " ++ joinCommaSpace rest

def extract_query_categories : QueryPayload → String
  | .decoded q => joinCommaSpace ((q.categories.getD []).map fun c => c.name.getD "")
  | _ => "Categories not available"

/-! ## String ordering and sorting (Python `sorted` over strings) -/

/-- Lexicographic comparison of char lists by code point, as Python
compares strings. -/
def listCharLt : List Char → List Char → Bool
  | [], [] => false
  | [], _ :: _ => true
  | _ :: _, [] => false
  | a :: as', b :: bs => if a.val < b.val then true
      else if b.val < a.val then false
      else listCharLt as' bs

def strLe (a b : String) : Bool := !(listCharLt b.toList a.toList)

/-- Insert into an ascending list, before the first element not below it
(stable insertion sort). -/
def insertAsc (x : String) : List String → List String
  | [] => [x]
  | y :: ys => if strLe x y then x :: y :: ys else y :: insertAsc x ys

/-- Python `sorted` over strings (ascending, lexicographic by code point). -/
def sortStrings (l : List String) : List String := l.foldr insertAsc []

/-- Python `sorted(set(l))`: unique values in ascending order. -/
def sortedUnique (l : List String) : List String := sortStrings l.dedup

/-! ## `summarize_case_query_data` and the quarantine pass -/

structure SummaryRow where
  query_name : String
  os_query_table : List String
  unique_osquery_table : List String
  query_attributes : List String
  unique_osquery_attributes : List String
deriving Repr, DecidableEq

/-- The same row after `_check_for_sql_parse_errors` has rewritten the
columns and added the removed-item audit columns. -/
structure CheckedSummaryRow where
  query_name : String
  os_query_table : List String
  os_query_table_removed_items : List String
  unique_osquery_table : List String
  query_attributes : List String
  query_attributes_removed_items : List String
  unique_osquery_attributes : List String
deriving Repr, DecidableEq

def sql_keywords_to_log_and_remove : List String :=
  ["JSON_EACH", "GROUP", "GROUP_CONCAT", "CHAR", "SELECT"]

/-- `__remove_invalid_elements_and_track`: full-match removal.
Returns `(filtered_list, removed_items)`. -/
def remove_invalid_elements_and_track (lst elements : List String) :
    List String × List String :=
  (lst.filter (fun item => !elements.contains item),
   lst.filter (fun item => elements.contains item))

/-- `target.find(search) != -1`: case-sensitive substring test. -/
def pyFindHit (target search : String) : Bool :=
  containsExact search.toList target.toList

/-- `__remove_invalid_elements_fuzzy_match_and_track`: substring-match
removal. Returns `(filtered_items, removed_items)`. -/
def remove_invalid_elements_fuzzy_match_and_track (lst elements : List String) :
    List String × List String :=
  (lst.filter (fun target => !elements.any (fun search => pyFindHit target search)),
   lst.filter (fun target => elements.any (fun search => pyFindHit target search)))

/-- The per-row effect of `_check_for_sql_parse_errors` (each column is
rewritten by a row-wise `apply`; removed-item columns are computed from
the original column values). -/
def check_row (r : SummaryRow) : CheckedSummaryRow :=
  { query_name := r.query_name
    os_query_table := (remove_invalid_elements_and_track r.os_query_table sql_keywords_to_log_and_remove).1
    os_query_table_removed_items := (remove_invalid_elements_and_track r.os_query_table sql_keywords_to_log_and_remove).2
    unique_osquery_table := (remove_invalid_elements_and_track r.unique_osquery_table sql_keywords_to_log_and_remove).1
    query_attributes := (remove_invalid_elements_fuzzy_match_and_track r.query_attributes sql_keywords_to_log_and_remove).1
    query_attributes_removed_items := (remove_invalid_elements_fuzzy_match_and_track r.query_attributes sql_keywords_to_log_and_remove).2
    unique_osquery_attributes := (remove_invalid_elements_fuzzy_match_and_track r.unique_osquery_attributes sql_keywords_to_log_and_remove).1 }

/-- The summary row built for one successfully decoded payload.
`none` models an uncaught exception inside `extract_sql_details`. -/
def summary_row_of_json (q : QueryJson) : Option SummaryRow :=
  match extract_sql_details (q.command.getD "") with
  | none => none
  | some (tables, attributes, _new_attributes) =>
    some { query_name := q.name.getD "Unnamed"
           os_query_table := tables
           unique_osquery_table := sortedUnique tables
           query_attributes := attributes
           unique_osquery_attributes := sortedUnique attributes }

/-- The `query_summary_data` list: the row loop of
`summarize_case_query_data`.  Rows whose `Query` cell is null or fails
JSON decoding are skipped (`continue`), contributing nothing. -/
def query_summary_rows : List RawRecord → Option (List SummaryRow)
  | [] => some []
  | r :: rest =>
    match r.Query with
    | .nullValue => query_summary_rows rest
    | .invalidJson => query_summary_rows rest
    | .decoded q =>
      match summary_row_of_json q with
      | none => none
      | some row =>
        match query_summary_rows rest with
        | none => none
        | some rows => some (row :: rows)

/-- `summarize_case_query_data`: build the per-record summary rows, then run
`_check_for_sql_parse_errors` over the resulting dataframe.  When every
row was skipped the dataframe has no columns at all, and the column
accesses inside `_check_for_sql_parse_errors` raise `KeyError`
(modelled by `none`). -/
def summarize_case_query_data (rows : List RawRecord) : Option (List CheckedSummaryRow) :=
  match query_summary_rows rows with
  | none => none
  | some [] => none
  | some collected => some (collected.map check_row)

/-! ## Grouping (`_query_table_data`) and the query analysis summary -/

structure QueryTableGroupRow where
  query_name : String
  table_list : List (List String)
  flattened_table_list : List String
  os_query_table_removed_items : List String
deriving Repr, DecidableEq

/-- `df.groupby('query_name')` aggregation of `_query_table_data`: one row
per distinct query name (pandas sorts the group keys), collecting the
member rows' `unique_osquery_table` lists, their flattening, and the
flattened removed-table items. -/
def query_table_data (rows : List CheckedSummaryRow) : List QueryTableGroupRow :=
  (sortStrings ((rows.map (·.query_name)).dedup)).map fun n =>
    let members := rows.filter (fun r => r.query_name = n)
    { query_name := n
      table_list := members.map (·.unique_osquery_table)
      flattened_table_list := (members.map (·.unique_osquery_table)).flatten
      os_query_table_removed_items := (members.map (·.os_query_table_removed_items)).flatten }

structure QuerySummary where
  query_name : String
  frequency_of_execution : Nat
  parsing_error_sql_content : List String
  unique_tables_queried : List String
  query_execution_percentage : ℚ
deriving Repr, DecidableEq

/-- The group loop of `add_osquery_query_analysis_summary`: one summary
object per group, before the percentage pass fills in
`query_execution_percentage`.  `unique_tables_queried` is
`list(set(...))`; Python's set iteration order is unspecified, modelled
as first-occurrence order. -/
def osquery_query_summary_list (srows : List CheckedSummaryRow) : List QuerySummary :=
  (query_table_data srows).map fun g =>
    { query_name := g.query_name
      frequency_of_execution := g.table_list.length
      parsing_error_sql_content :=
        if g.os_query_table_removed_items.length = 0 then ["None"]
        else g.os_query_table_removed_items
      unique_tables_queried := g.flattened_table_list.dedup
      query_execution_percentage := 0 }

/-- The `counter` accumulated in the same loop: the sum of the group sizes. -/
def query_counter (srows : List CheckedSummaryRow) : Nat :=
  ((osquery_query_summary_list srows).map (·.frequency_of_execution)).sum

/-! ## Attribute classifier (`__sort_attributes_by_characters`) -/

structure AttrBuckets where
  alphabetical_attributes : List String
  alphabetical_and_non_numeric : List String
  non_alphabetic : List String
  not_sorted : List String
deriving Repr, DecidableEq

/-- Full anchored match `^[...]+$` of a character class. -/
def fullMatchClass (p : Char → Bool) (s : List Char) : Bool :=
  !s.isEmpty && s.all p

/-- The first classification rule: the disjunction of the five anchored
regexes `^[a-zA-Z']+$`, `^[a-zA-Z]+$`, `^[a-zA-Z_]+$`, `^[a-zA-Z0-9]+$`,
`^[a-zA-Z0-9_]+$` from the source. -/
def isRuleOne (s : String) : Bool :=
  fullMatchClass (fun c => c.isAlpha || c = aposChar) s.toList ||
  fullMatchClass (fun c => c.isAlpha) s.toList ||
  fullMatchClass (fun c => c.isAlpha || c = '_') s.toList ||
  fullMatchClass (fun c => c.isAlphanum) s.toList ||
  fullMatchClass (fun c => c.isAlphanum || c = '_') s.toList

/-- `re.search(r"[a-zA-Z]", s)`. -/
def hasLetter (s : String) : Bool := s.toList.any (·.isAlpha)

/-- `re.search(r"\W", s)` (ASCII model of `\W`). -/
def hasNonWord (s : String) : Bool := s.toList.any (fun c => !isWordChar c)

def isRuleTwo (s : String) : Bool := hasLetter s && hasNonWord s

def isRuleThree (s : String) : Bool := !hasLetter s

/-- `__sort_attributes_by_characters`: the Python loop appends each string
to the first group of the `if`/`elif`/`else` chain it satisfies; the
order-preserving filters below encode exactly that chain. -/
def sort_attributes_by_characters (unique_list_of_attributes : List String) : AttrBuckets :=
  { alphabetical_attributes := unique_list_of_attributes.filter (fun s => isRuleOne s)
    alphabetical_and_non_numeric :=
      unique_list_of_attributes.filter (fun s => !isRuleOne s && isRuleTwo s)
    non_alphabetic :=
      unique_list_of_attributes.filter (fun s => !isRuleOne s && !isRuleTwo s && isRuleThree s)
    not_sorted :=
      unique_list_of_attributes.filter (fun s => !isRuleOne s && !isRuleTwo s && !isRuleThree s) }

/-! ## JSON values and numeric rounding -/

/-- The JSON documents produced by `export_views_to_json`.  Numbers are
modelled as rationals; Python's binary floating point is approximated by
exact rational arithmetic (no claim in scope depends on float artefacts). -/
inductive JsonVal where
  | str (s : String)
  | num (q : ℚ)
  | arr (items : List JsonVal)
  | obj (fields : List (String × JsonVal))

def jsonIsEmptyObj : JsonVal → Bool
  | .obj [] => true
  | _ => false

def jsonIsObj : JsonVal → Bool
  | .obj _ => true
  | _ => false

def jsonIsArr : JsonVal → Bool
  | .arr _ => true
  | _ => false

def jsonTopKeys : JsonVal → List String
  | .obj fields => fields.map (·.1)
  | _ => []

def jsonOfStrList (l : List String) : JsonVal := .arr (l.map .str)

/-- Python `round` (banker's rounding) to an integer, over ℚ. -/
def pyRoundInt (q : ℚ) : ℤ :=
  let f : ℤ := Rat.floor q
  let r : ℚ := q - (f : ℚ)
  if r < 1/2 then f
  else if (1 : ℚ)/2 < r then f + 1
  else if f % 2 = 0 then f else f + 1

/-- Python `round(q, ndigits)` over ℚ. -/
def pyRound (ndigits : Nat) (q : ℚ) : ℚ :=
  (pyRoundInt (q * (10 : ℚ) ^ ndigits) : ℚ) / (10 : ℚ) ^ ndigits

/-- Insert into a descending list after every element that is not strictly
below it; folded over the input left to right this is a stable descending
sort, as Python's stable `sorted(..., reverse=True)`. -/
def insertDescBy (gt : α → α → Bool) (x : α) : List α → List α
  | [] => [x]
  | y :: ys => if gt x y then x :: y :: ys else y :: insertDescBy gt x ys

def sortDescBy (gt : α → α → Bool) (l : List α) : List α :=
  l.foldl (fun acc x => insertDescBy gt x acc) []

/-! ## `export_views_to_json`: dataset statistics helpers -/

def pyStripStr (s : String) : String := String.mk (pyStrip s.toList)

/-- `_case_counts`: `(unique count, total count)` over the per-row parsed
case lists; rows whose `ast.literal_eval` failed are skipped (`continue`). -/
def case_counts (column : List (Option (List String))) : Nat × Nat :=
  ((column.filterMap id).flatten.dedup.length,
   ((column.filterMap id).map List.length).sum)

/-- `_customer_counts`: `(unique count, total count)` of stripped ids. -/
def customer_counts (column : List String) : Nat × Nat :=
  ((column.map pyStripStr).dedup.length, column.length)

/-- `_unique_region_list`.  Python materialises `list(set(...))`, whose
iteration order is unspecified; modelled as first-occurrence order. -/
def unique_region_list (column : List String) : List String :=
  (column.map pyStripStr).dedup

def isDigitList (l : List Char) : Bool := !l.isEmpty && l.all (·.isDigit)

def natOfDigits (l : List Char) : Nat :=
  l.foldl (fun n c => n * 10 + (c.toNat - 48)) 0

def isLeapYear (y : Nat) : Bool := (y % 4 = 0 && y % 100 ≠ 0) || y % 400 = 0

def daysInMonth (y m : Nat) : Nat :=
  if m = 2 then (if isLeapYear y then 29 else 28)
  else if m = 4 || m = 6 || m = 9 || m = 11 then 30
  else 31

/-- Model of `datetime.strptime(s, "%Y-%m-%d")`: three dash-separated
digit fields (year up to 4 digits, month and day up to 2), with calendar
validity; `none` models the `ValueError` branch. -/
def parse_date_ymd (s : List Char) : Option (Nat × Nat × Nat) :=
  match splitOnChar '-' s with
  | [ys, ms, ds] =>
    if isDigitList ys && isDigitList ms && isDigitList ds &&
       decide (ys.length ≤ 4) && decide (ms.length ≤ 2) && decide (ds.length ≤ 2) then
      let y := natOfDigits ys
      let m := natOfDigits ms
      let d := natOfDigits ds
      if decide (1 ≤ y) && decide (1 ≤ m) && decide (m ≤ 12) &&
         decide (1 ≤ d) && decide (d ≤ daysInMonth y m) then some (y, m, d)
      else none
    else none
  | _ => none

def padNat (width n : Nat) : String :=
  let s := toString n
  String.mk (List.replicate (width - s.length) '0') ++ s

/-- `str(datetime(y, m, d))`. -/
def formatDateTime (ymd : Nat × Nat × Nat) : String :=
  padNat 4 ymd.1 ++ "-" ++ padNat 2 ymd.2.1 ++ "-" ++ padNat 2 ymd.2.2 ++ " 00:00:00"

/-- `_date_range`: parse each stripped entry strictly, skip failures, and
collect the set of formatted datetimes (set order modelled as
first-occurrence order). -/
def date_range (column : List String) : List String :=
  (column.filterMap fun item =>
    (parse_date_ymd (pyStrip item.toList)).map formatDateTime).dedup

/-- `add_osquery_data_stats_summary`.  In the source the `stats`
assignment ends with a trailing comma, so the enabled branch actually
builds a one-element *tuple* holding the stats dict; `json.dump`
serialises a tuple as a JSON array. -/
def add_osquery_data_stats_summary (summarize_osqueries : Bool)
    (df_combined : List RawRecord) : JsonVal :=
  if !summarize_osqueries then .obj []
  else
    let caseC := case_counts (df_combined.map (·.PossibleCases))
    let custC := customer_counts (df_combined.map (·.CustomerID))
    .arr [.obj
      [("total_number_queries_analyzed", .num df_combined.length),
       ("number_of_unique_cases", .num caseC.1),
       ("total_number_of_cases_analyzed", .num caseC.2),
       ("number_of_unique_customers", .num custC.1),
       ("total_number_of_customers_analyzed", .num custC.2),
       ("region_list", jsonOfStrList (unique_region_list (df_combined.map (·.Region)))),
       ("date_range", jsonOfStrList (date_range (df_combined.map (·.CreatedAtUTC))))]]

/-! ## `add_osquery_query_analysis_summary` -/

/-- `__calculate_query_percentage`: `round(freq / total, 5) * 100`. -/
def calculate_query_percentage (qs : List QuerySummary) (total_query_count : Nat) :
    List QuerySummary :=
  qs.map fun q =>
    { q with query_execution_percentage :=
        pyRound 5 ((q.frequency_of_execution : ℚ) / (total_query_count : ℚ)) * 100 }

/-- `__create_queries_by_percentage`: name → percentage pairs, stably
sorted by percentage descending. -/
def create_queries_by_percentage (query_list : List QuerySummary) : List (String × ℚ) :=
  sortDescBy (fun a b => decide (b.2 < a.2))
    (query_list.map fun q => (q.query_name, q.query_execution_percentage))

/-- `__create_queries_by_percentage_count`: each key of the
percentage-sorted dict is rewritten to a nested dict with the percentage
and the execution count taken from the matching query object (query
names are the group keys, hence unique, so first match = last match). -/
def create_queries_by_percentage_count (query_list : List QuerySummary) :
    List (String × JsonVal) :=
  (create_queries_by_percentage query_list).map fun kv =>
    match query_list.find? (fun q => q.query_name = kv.1) with
    | some q => (kv.1, .obj
        [("query_execution_percentage", .num q.query_execution_percentage),
         ("query_execution_count", .num q.frequency_of_execution)])
    | none => (kv.1, .num kv.2)

def jsonOfQuerySummary (q : QuerySummary) : JsonVal :=
  .obj [("query_name", .str q.query_name),
        ("frequency_of_execution", .num q.frequency_of_execution),
        ("parsing_error_sql_content", jsonOfStrList q.parsing_error_sql_content),
        ("unique_tables_queried", jsonOfStrList q.unique_tables_queried),
        ("query_execution_percentage", .num q.query_execution_percentage)]

def add_osquery_query_analysis_summary (summarize_queries_in_dataset : Bool)
    (df_summarized : List CheckedSummaryRow) : JsonVal :=
  if !summarize_queries_in_dataset then .obj []
  else
    let lst := osquery_query_summary_list df_summarized
    let counter := query_counter df_summarized
    let withPct := calculate_query_percentage lst counter
    .obj [("queries", .arr (withPct.map jsonOfQuerySummary)),
          ("queries_by_percentage",
            .obj ((create_queries_by_percentage withPct).map fun p => (p.1, .num p.2))),
          ("queries_by_percentage_count", .obj (create_queries_by_percentage_count withPct))]

/-! ## `add_osquery_table_analysis_summary` -/

/-- `_create_unique_table_list` over the grouped dataframe. -/
def create_unique_table_list (groupRows : List QueryTableGroupRow) : List String :=
  sortStrings ((groupRows.map (·.flattened_table_list)).flatten.dedup)

/-- `_generate_total_table_query_counts`: `[occurrence_count.most_common()
as a dict, percentage dict]`.  `Counter.most_common` sorts by count
descending, ties in first-insertion order (stable). -/
def generate_total_table_query_counts (rows : List CheckedSummaryRow) : JsonVal :=
  let all_occurrences := (rows.map (·.os_query_table)).flatten
  let counts := sortDescBy (fun a b => decide (b.2 < a.2))
    (all_occurrences.dedup.map fun t => (t, all_occurrences.count t))
  let total_count := (counts.map (·.2)).sum
  let percentage_count := counts.map fun kv =>
    (kv.1, pyRound 2 ((kv.2 : ℚ) / (total_count : ℚ) * 100))
  .arr [.obj (counts.map fun p => (p.1, .num p.2)),
        .obj (percentage_count.map fun p => (p.1, .num p.2))]

def bumpQueryCount (query_name : String) : List (String × Nat) → List (String × Nat)
  | [] => [(query_name, 1)]
  | (n, c) :: rest =>
    if n = query_name then (n, c + 1) :: rest
    else (n, c) :: bumpQueryCount query_name rest

def bumpTable (query_name tbl : String) :
    List (String × List (String × Nat)) → List (String × List (String × Nat))
  | [] => [(tbl, [(query_name, 1)])]
  | (t, qs) :: rest =>
    if t = tbl then (t, bumpQueryCount query_name qs) :: rest
    else (t, qs) :: bumpTable query_name tbl rest

/-- The `defaultdict(list)` accumulation of `_generate_table_counts_by_query`. -/
def table_counts_fold (rows : List CheckedSummaryRow) :
    List (String × List (String × Nat)) :=
  rows.foldl (fun acc r =>
    r.os_query_table.foldl (fun a tbl => bumpTable r.query_name tbl a) acc) []

/-- `_generate_table_counts_by_query`: per-table query counts, a synthetic
`total_queries` entry inserted at the head of each list, the whole dict
sorted by total descending (stable). -/
def generate_table_counts_by_query (rows : List CheckedSummaryRow) :
    List (String × JsonVal) :=
  let withTotals := (table_counts_fold rows).map fun tq =>
    (tq.1, (tq.2.map (·.2)).sum, tq.2)
  (sortDescBy (fun a b => decide (b.2.1 < a.2.1)) withTotals).map fun tq =>
    (tq.1, .arr (.obj [("total_queries", .num tq.2.1)] ::
      tq.2.2.map fun nc =>
        .obj [("query_name", .str nc.1), ("number_of_times_queried", .num nc.2)]))

/-- `add_osquery_table_analysis_summary`.  Unlike its three sibling
section builders, the source never consults the boolean parameter
(`summarize_tables_in_dataet`): the summary is built unconditionally. -/
def add_osquery_table_analysis_summary (summarize_tables_in_dataet : Bool)
    (df_summarized : List CheckedSummaryRow) : JsonVal :=
  let query_table_group_summary_df := query_table_data df_summarized
  .obj [("unique_table_list", jsonOfStrList (create_unique_table_list query_table_group_summary_df)),
        ("total_table_query_count", generate_total_table_query_counts df_summarized),
        ("table_counts_by_queries", .obj (generate_table_counts_by_query df_summarized))]

/-! ## `add_osquery_attribute_analysis_summary` and the report -/

/-- `__create_unique_attribute_list`: sorted union of the per-row unique
attribute lists. -/
def create_unique_attribute_list (rows : List CheckedSummaryRow) : List String :=
  sortStrings ((rows.map (·.unique_osquery_attributes)).flatten.dedup)

def add_osquery_attribute_analysis_summary (summarize_attributes_in_dataset : Bool)
    (df_summarized : List CheckedSummaryRow) : JsonVal :=
  if !summarize_attributes_in_dataset then .obj []
  else
    let ual := create_unique_attribute_list df_summarized
    let buckets := sort_attributes_by_characters ual
    .obj [("valid_attributes", jsonOfStrList buckets.alphabetical_attributes),
          ("valid_attributes_and_sql", jsonOfStrList buckets.alphabetical_and_non_numeric),
          ("invalid_attributes", jsonOfStrList buckets.non_alphabetic),
          ("not_sorted", jsonOfStrList buckets.not_sorted),
          ("unique_attribute_list", jsonOfStrList ual),
          ("incorrectly_parsed_attributes", .arr [])]

/-- The `data` document written by `export_views_to_json`. -/
def export_report_data (df_combined : List RawRecord)
    (df_summarized : List CheckedSummaryRow)
    (summarize_osqueries summarize_queries_in_dataset
     summarize_attributes_in_dataset summarize_tables_in_dataset : Bool) : JsonVal :=
  .obj [("osquery_summary", .obj
    [("os_query_data_analysis_stats",
       add_osquery_data_stats_summary summarize_osqueries df_combined),
     ("os_query_input_query_summary",
       add_osquery_query_analysis_summary summarize_queries_in_dataset df_summarized),
     ("os_query_table_analysis_summary",
       add_osquery_table_analysis_summary summarize_tables_in_dataset df_summarized),
     ("os_query_attribute_analysis_summary",
       add_osquery_attribute_analysis_summary summarize_attributes_in_dataset df_summarized)])]

/-! ## Helper lemmas: splitting, substring search, sorting, counting -/

theorem splitOnChar_ne_nil (c : Char) (l : List Char) : splitOnChar c l ≠ [] := by
  induction l with
  | nil => simp [splitOnChar]
  | cons a rest ih =>
    unfold splitOnChar
    by_cases hac : a = c
    · simp [hac]
    · simp only [hac, if_false]
      cases h : splitOnChar c rest with
      | nil => simp
      | cons hh tt => simp

theorem two_le_splitOnChar_length (c : Char) (l : List Char)
    (h : containsChar c l = true) : 2 ≤ (splitOnChar c l).length := by
  induction l with
  | nil => simp [containsChar] at h
  | cons a rest ih =>
    unfold splitOnChar
    by_cases hac : a = c
    · simp only [hac, if_true]
      have h1 := splitOnChar_ne_nil c rest
      cases hr : splitOnChar c rest with
      | nil => exact absurd hr h1
      | cons hh tt => simp [List.length_cons]
    · have hrest : containsChar c rest = true := by
        simp [containsChar] at h ⊢
        rcases h with h | h
        · exact absurd h hac
        · exact h
      simp only [hac, if_false]
      cases hr : splitOnChar c rest with
      | nil => exact absurd hr (splitOnChar_ne_nil c rest)
      | cons hh tt =>
        have := ih hrest
        rw [hr] at this
        simpa using this

theorem attributeOfItem_isSome (item : List Char) : (attributeOfItem item).isSome = true := by
  unfold attributeOfItem
  by_cases h1 : containsChar '*' item
  · simp [h1]
  · by_cases h2 : hasASKeyword item
    · simp only [h1, h2, if_false, if_true]
      cases searchASAlias item <;> simp
    · by_cases h3 : containsChar '.' item
      · simp only [h1, h2, h3, if_false, if_true]
        have hlen := two_le_splitOnChar_length '.' item h3
        cases hs : splitOnChar '.' item with
        | nil => rw [hs] at hlen; simp at hlen
        | cons x t =>
          cases t with
          | nil => rw [hs] at hlen; simp at hlen
          | cons y tt => simp
      · by_cases h4 : matchesExclusionSet item <;> simp [h1, h2, h3, h4]

theorem optionMapAll_isSome (f : α → Option β) (xs : List α)
    (h : ∀ x ∈ xs, (f x).isSome = true) : (optionMapAll f xs).isSome = true := by
  induction xs with
  | nil => simp [optionMapAll]
  | cons x rest ih =>
    unfold optionMapAll
    have hx := h x (List.mem_cons_self x rest)
    cases hfx : f x with
    | none => rw [hfx] at hx; simp at hx
    | some y =>
      have hr := ih (fun z hz => h z (List.mem_cons_of_mem x hz))
      cases hrest : optionMapAll f rest with
      | none => rw [hrest] at hr; simp at hr
      | some ys => simp

theorem extract_attribute_names_isSome (sql : String) :
    (extract_attribute_names sql).isSome = true := by
  unfold extract_attribute_names
  have h := optionMapAll_isSome attributeOfItem (selectItems sql.toList)
    (fun x _ => attributeOfItem_isSome x)
  cases hm : optionMapAll attributeOfItem (selectItems sql.toList) with
  | none => rw [hm] at h; simp at h
  | some ys => simp [hm]

theorem extract_sql_details_isSome (sql : String) :
    (extract_sql_details sql).isSome = true := by
  unfold extract_sql_details
  have h := extract_attribute_names_isSome sql
  cases hm : extract_attribute_names sql with
  | none => rw [hm] at h; simp at h
  | some attrs => simp

theorem startsWithCI_of_ciPrefixMatch (n : List Char) :
    ∀ (s t : List Char), ciPrefixMatch n s = some t → startsWithCI n s = true := by
  induction n with
  | nil => intro s t _; simp [startsWithCI]
  | cons x ns ih =>
    intro s t h
    cases s with
    | nil => simp [ciPrefixMatch] at h
    | cons c cs =>
      simp only [ciPrefixMatch] at h
      by_cases hc : lowerChar c = lowerChar x
      · rw [if_pos hc] at h
        simp [startsWithCI, hc]
        exact ih cs t h
      · rw [if_neg hc] at h
        exact absurd h (by simp)

theorem ciPrefixMatch_eq_drop (n : List Char) :
    ∀ (s t : List Char), ciPrefixMatch n s = some t → t = s.drop n.length := by
  induction n with
  | nil => intro s t h; simpa [ciPrefixMatch] using h.symm
  | cons x ns ih =>
    intro s t h
    cases s with
    | nil => simp [ciPrefixMatch] at h
    | cons c cs =>
      simp only [ciPrefixMatch] at h
      by_cases hc : lowerChar c = lowerChar x
      · rw [if_pos hc] at h
        simpa using ih cs t h
      · rw [if_neg hc] at h
        exact absurd h (by simp)

theorem containsCI_of_startsWithCI (n s : List Char)
    (h : startsWithCI n s = true) : containsCI n s = true := by
  cases s with
  | nil => simpa [containsCI] using h
  | cons c cs => simp [containsCI, h]

theorem containsCI_of_tail (n : List Char) (c : Char) (cs : List Char)
    (h : containsCI n cs = true) : containsCI n (c :: cs) = true := by
  simp [containsCI, h]

theorem containsCI_of_drop (n : List Char) (k : Nat) :
    ∀ (l : List Char), containsCI n (l.drop k) = true → containsCI n l = true := by
  induction k with
  | zero => intro l h; simpa using h
  | succ k ih =>
    intro l h
    cases l with
    | nil => simpa using h
    | cons c cs =>
      simp only [List.drop_succ_cons] at h
      exact containsCI_of_tail n c cs (ih cs h)

theorem startsWithExact_of_exactPrefixMatch (n : List Char) :
    ∀ (s t : List Char), exactPrefixMatch n s = some t → startsWithExact n s = true := by
  induction n with
  | nil => intro s t _; simp [startsWithExact]
  | cons x ns ih =>
    intro s t h
    cases s with
    | nil => simp [exactPrefixMatch] at h
    | cons c cs =>
      simp only [exactPrefixMatch] at h
      by_cases hc : c = x
      · rw [if_pos hc] at h
        simp [startsWithExact, hc]
        exact ih cs t h
      · rw [if_neg hc] at h
        exact absurd h (by simp)

theorem containsExact_of_startsWithExact (n s : List Char)
    (h : startsWithExact n s = true) : containsExact n s = true := by
  cases s with
  | nil => simpa [containsExact] using h
  | cons c cs => simp [containsExact, h]

theorem containsExact_of_tail (n : List Char) (c : Char) (cs : List Char)
    (h : containsExact n cs = true) : containsExact n (c :: cs) = true := by
  simp [containsExact, h]

/-! ### No `FROM` / no `SELECT` / no `END` degradation lemmas -/

theorem matchFromW_eq_none (s : List Char)
    (h : containsCI "from".toList s = false) : matchFromW s = none := by
  unfold matchFromW
  cases hm : ciPrefixMatch "from".toList s with
  | none => rfl
  | some t =>
    have := containsCI_of_startsWithCI _ _ (startsWithCI_of_ciPrefixMatch _ s t hm)
    rw [this] at h
    exact absurd h (by simp)

theorem scanFromW_eq_nil (fuel : Nat) :
    ∀ (s : List Char), containsCI "from".toList s = false → scanFromW fuel s = [] := by
  induction fuel with
  | zero => intro s _; cases s <;> rfl
  | succ fuel ih =>
    intro s h
    cases s with
    | nil => rfl
    | cons c cs =>
      have hm := matchFromW_eq_none (c :: cs) h
      have hcs : containsCI "from".toList cs = false := by
        by_contra hne
        have : containsCI "from".toList cs = true := by
          cases hx : containsCI "from".toList cs
          · exact absurd hx hne
          · rfl
        rw [containsCI_of_tail _ c cs this] at h
        exact absurd h (by simp)
      simp only [scanFromW, hm]
      exact ih cs hcs

theorem matchWsFromCI_containsFrom (v r : List Char)
    (h : matchWsFromCI v = some r) : containsCI "from".toList v = true := by
  unfold matchWsFromCI at h
  by_cases hm : wsPrefixLen v = 0
  · simp [hm] at h
  · rw [if_neg hm] at h
    exact containsCI_of_drop _ (wsPrefixLen v) v
      (containsCI_of_startsWithCI _ _ (startsWithCI_of_ciPrefixMatch _ _ _ h))

theorem lazyCaptureAux_containsFrom :
    ∀ (v acc : List Char) (r : List Char × List Char),
      lazyCaptureAux acc v = some r → containsCI "from".toList v = true := by
  intro v
  induction v with
  | nil =>
    intro acc r h
    unfold lazyCaptureAux at h
    cases hm : matchWsFromCI [] with
    | none => rw [hm] at h; simp at h
    | some rest => exact matchWsFromCI_containsFrom [] rest hm
  | cons c v' ih =>
    intro acc r h
    unfold lazyCaptureAux at h
    cases hm : matchWsFromCI (c :: v') with
    | some rest => exact matchWsFromCI_containsFrom _ rest hm
    | none =>
      rw [hm] at h
      exact containsCI_of_tail _ c v' (ih (c :: acc) r h)

theorem tryWsSplits_containsFrom (j : Nat) :
    ∀ (t : List Char) (r : List Char × List Char),
      tryWsSplits j t = some r → containsCI "from".toList t = true := by
  induction j with
  | zero => intro t r h; simp [tryWsSplits] at h
  | succ jj ih =>
    intro t r h
    unfold tryWsSplits at h
    cases hm : lazyCaptureAux [] (t.drop (jj + 1)) with
    | some r' =>
      exact containsCI_of_drop _ (jj + 1) t
        (lazyCaptureAux_containsFrom _ [] r' hm)
    | none =>
      rw [hm] at h
      exact ih t r h

theorem matchSelectFrom_some (s : List Char) (r : List Char × List Char)
    (h : matchSelectFrom s = some r) :
    containsCI "select".toList s = true ∧ containsCI "from".toList s = true := by
  unfold matchSelectFrom at h
  cases hm : ciPrefixMatch "select".toList s with
  | none => rw [hm] at h; simp at h
  | some t =>
    rw [hm] at h
    refine ⟨containsCI_of_startsWithCI _ _ (startsWithCI_of_ciPrefixMatch _ s t hm), ?_⟩
    have ht : t = s.drop ("select".toList).length := ciPrefixMatch_eq_drop _ s t hm
    have := tryWsSplits_containsFrom (wsPrefixLen t) t r h
    rw [ht] at this
    exact containsCI_of_drop _ _ s this

theorem scanSelectFrom_eq_nil (needle : List Char) (fuel : Nat)
    (hneed : needle = "select".toList ∨ needle = "from".toList) :
    ∀ (s : List Char), containsCI needle s = false → scanSelectFrom fuel s = [] := by
  induction fuel with
  | zero => intro s _; cases s <;> rfl
  | succ fuel ih =>
    intro s h
    cases s with
    | nil => rfl
    | cons c cs =>
      have hm : matchSelectFrom (c :: cs) = none := by
        cases hmm : matchSelectFrom (c :: cs) with
        | none => rfl
        | some r =>
          have hsel := matchSelectFrom_some _ r hmm
          rcases hneed with hn | hn <;> rw [hn] at h
          · rw [hsel.1] at h; exact absurd h (by simp)
          · rw [hsel.2] at h; exact absurd h (by simp)
      have hcs : containsCI needle cs = false := by
        by_contra hne
        have hx : containsCI needle cs = true := by
          cases hy : containsCI needle cs
          · exact absurd hy hne
          · rfl
        rw [containsCI_of_tail _ c cs hx] at h
        exact absurd h (by simp)
      simp only [scanSelectFrom, hm]
      exact ih cs hcs

theorem exactPrefixMatch_eq_drop (n : List Char) :
    ∀ (s t : List Char), exactPrefixMatch n s = some t → t = s.drop n.length := by
  induction n with
  | nil => intro s t h; simpa [exactPrefixMatch] using h.symm
  | cons x ns ih =>
    intro s t h
    cases s with
    | nil => simp [exactPrefixMatch] at h
    | cons c cs =>
      simp only [exactPrefixMatch] at h
      by_cases hc : c = x
      · rw [if_pos hc] at h
        simpa using ih cs t h
      · rw [if_neg hc] at h
        exact absurd h (by simp)

theorem containsExact_of_drop (n : List Char) (k : Nat) :
    ∀ (l : List Char), containsExact n (l.drop k) = true → containsExact n l = true := by
  induction k with
  | zero => intro l h; simpa using h
  | succ k ih =>
    intro l h
    cases l with
    | nil => simpa using h
    | cons c cs =>
      simp only [List.drop_succ_cons] at h
      exact containsExact_of_tail n c cs (ih cs h)

theorem lazyBodyEnd_containsEnd :
    ∀ (v acc : List Char) (r : List Char × List Char),
      lazyBodyEnd acc v = some r → containsExact "END".toList v = true := by
  intro v
  induction v with
  | nil => intro acc r h; simp [lazyBodyEnd] at h
  | cons c v' ih =>
    intro acc r h
    unfold lazyBodyEnd at h
    cases h3 : exactPrefixMatch "END".toList v' with
    | some rest =>
      exact containsExact_of_tail _ c v'
        (containsExact_of_startsWithExact _ _
          (startsWithExact_of_exactPrefixMatch _ v' rest h3))
    | none =>
      rw [h3] at h
      exact containsExact_of_tail _ c v' (ih (c :: acc) r h)

theorem matchCaseWhen_containsEnd (s : List Char) (r : List Char × List Char)
    (h : matchCaseWhen s = some r) : containsExact "END".toList s = true := by
  unfold matchCaseWhen at h
  cases h1 : exactPrefixMatch "CASE".toList s with
  | none => rw [h1] at h; simp at h
  | some t =>
    rw [h1] at h
    by_cases hm : wsPrefixLen t = 0
    · simp [hm] at h
    · simp only [hm, if_false] at h
      cases h2 : exactPrefixMatch "WHEN".toList (t.drop (wsPrefixLen t)) with
      | none => rw [h2] at h; simp at h
      | some u =>
        rw [h2] at h
        have hu : containsExact "END".toList u = true := lazyBodyEnd_containsEnd u [] r h
        have hu2 : u = ((t.drop (wsPrefixLen t)).drop ("WHEN".toList).length) :=
          exactPrefixMatch_eq_drop _ _ u h2
        have ht : t = s.drop ("CASE".toList).length := exactPrefixMatch_eq_drop _ s t h1
        rw [hu2] at hu
        have h4 := containsExact_of_drop _ _ _ hu
        have h5 := containsExact_of_drop _ _ _ h4
        rw [ht] at h5
        exact containsExact_of_drop _ _ _ h5

/-! ### Sorting and counting lemmas -/

theorem insertAsc_perm (x : String) (l : List String) :
    (insertAsc x l).Perm (x :: l) := by
  induction l with
  | nil => simp [insertAsc]
  | cons y ys ih =>
    by_cases h : strLe x y = true
    · simp [insertAsc, h]
    · simp only [insertAsc, h, if_false]
      exact (List.Perm.cons y ih).trans (List.Perm.swap x y ys)

theorem sortStrings_perm (l : List String) : (sortStrings l).Perm l := by
  induction l with
  | nil => exact List.Perm.refl _
  | cons x xs ih =>
    unfold sortStrings at ih ⊢
    simpa using (insertAsc_perm x (xs.foldr insertAsc [])).trans (List.Perm.cons x ih)

theorem filter_name_length_eq_count (rows : List CheckedSummaryRow) (n : String) :
    (rows.filter (fun r => r.query_name = n)).length =
      (rows.map (·.query_name)).count n := by
  induction rows with
  | nil => simp
  | cons r rest ih =>
    by_cases h : r.query_name = n
    · simp [List.count_cons, h, ih]
    · simp [List.count_cons, h, ih, List.filter_cons]

/-- Sum of the group sizes over `query_table_data` equals the number of
summary rows: each row belongs to exactly one (query-name) group. -/
theorem sum_group_sizes (srows : List CheckedSummaryRow) :
    (((query_table_data srows).map fun g => g.table_list.length)).sum = srows.length := by
  unfold query_table_data
  rw [List.map_map]
  have h1 : ((fun g : QueryTableGroupRow => g.table_list.length) ∘ fun n =>
      ({ query_name := n
         table_list := (srows.filter (fun r => r.query_name = n)).map (·.unique_osquery_table)
         flattened_table_list := ((srows.filter (fun r => r.query_name = n)).map (·.unique_osquery_table)).flatten
         os_query_table_removed_items := ((srows.filter (fun r => r.query_name = n)).map (·.os_query_table_removed_items)).flatten } : QueryTableGroupRow))
      = fun n => ((srows.map (·.query_name)).count n) := by
    funext n
    simp [Function.comp, filter_name_length_eq_count]
  rw [h1]
  have hperm := (sortStrings_perm ((srows.map (·.query_name)).dedup)).map
    (fun n => ((srows.map (·.query_name)).count n))
  rw [hperm.sum_eq]
  rw [List.sum_map_count_dedup_eq_length]
  exact List.length_map srows _

theorem query_counter_eq_length (srows : List CheckedSummaryRow) :
    query_counter srows = srows.length := by
  unfold query_counter osquery_query_summary_list
  rw [List.map_map]
  have h1 : ((fun q : QuerySummary => q.frequency_of_execution) ∘ fun g : QueryTableGroupRow =>
      ({ query_name := g.query_name
         frequency_of_execution := g.table_list.length
         parsing_error_sql_content :=
           if g.os_query_table_removed_items.length = 0 then ["None"]
           else g.os_query_table_removed_items
         unique_tables_queried := g.flattened_table_list.dedup
         query_execution_percentage := 0 } : QuerySummary))
      = fun g : QueryTableGroupRow => g.table_list.length := by
    funext g
    simp [Function.comp]
  rw [h1]
  exact sum_group_sizes srows

/-! ### The summarize pass: skipped rows and row counts -/

theorem summary_row_of_json_isSome (q : QueryJson) :
    (summary_row_of_json q).isSome = true := by
  unfold summary_row_of_json
  have h := extract_sql_details_isSome (q.command.getD "")
  cases hm : extract_sql_details (q.command.getD "") with
  | none => rw [hm] at h; simp at h
  | some v =>
    obtain ⟨t, a, d⟩ := v
    simp

theorem query_summary_rows_spec (rows : List RawRecord) :
    ∃ collected, query_summary_rows rows = some collected ∧
      collected.length = (rows.filter (fun r => r.Query.isDecoded)).length := by
  induction rows with
  | nil => exact ⟨[], rfl, rfl⟩
  | cons r rest ih =>
    obtain ⟨collected, hc, hlen⟩ := ih
    cases hq : r.Query with
    | nullValue =>
      refine ⟨collected, ?_, ?_⟩
      · simp only [query_summary_rows, hq]
        exact hc
      · rw [hlen]
        simp [List.filter_cons, hq, QueryPayload.isDecoded]
    | invalidJson =>
      refine ⟨collected, ?_, ?_⟩
      · simp only [query_summary_rows, hq]
        exact hc
      · rw [hlen]
        simp [List.filter_cons, hq, QueryPayload.isDecoded]
    | decoded q =>
      have hs := summary_row_of_json_isSome q
      cases hrow : summary_row_of_json q with
      | none => rw [hrow] at hs; simp at hs
      | some row =>
        refine ⟨row :: collected, ?_, ?_⟩
        · simp only [query_summary_rows, hq, hrow, hc]
        · simp [List.filter_cons, hq, QueryPayload.isDecoded, hlen]

/-! ### Complementary filter lemmas (quarantine round trip) -/

theorem length_filter_pair (l : List String) (p : String → Bool) :
    (l.filter (fun x => !p x)).length + (l.filter p).length = l.length := by
  induction l with
  | nil => simp
  | cons x rest ih =>
    by_cases h : p x = true
    · simp [List.filter_cons, h, ← ih]
      omega
    · simp [List.filter_cons, h, ← ih]
      omega

theorem count_filter_pair (l : List String) (p : String → Bool) (a : String) :
    (l.filter (fun x => !p x)).count a + (l.filter p).count a = l.count a := by
  induction l with
  | nil => simp
  | cons x rest ih =>
    rw [List.filter_cons, List.filter_cons]
    by_cases h : p x = true
    · rw [if_neg (by simp [h]), if_pos h]
      by_cases ha : x = a
      · subst ha
        rw [List.count_cons_self, List.count_cons_self]
        omega
      · rw [List.count_cons_of_ne (fun hh => ha hh.symm),
            List.count_cons_of_ne (fun hh => ha hh.symm)]
        exact ih
    · rw [if_pos (by simp [h]), if_neg h]
      by_cases ha : x = a
      · subst ha
        rw [List.count_cons_self, List.count_cons_self]
        omega
      · rw [List.count_cons_of_ne (fun hh => ha hh.symm),
            List.count_cons_of_ne (fun hh => ha hh.symm)]
        exact ih

/-! ## Claim theorems -/

/-- C3: per row (hence per group, whose audit lists are concatenations of
the row lists), quarantine partitions the originally extracted token
lists: clean length plus removed length equals the original length, for
both the table list and the attribute list, and every occurrence of a
token in the original list is in exactly one of the paired clean/removed
lists (counts add up), so no token is silently discarded. -/
theorem C3_quarantine_partition (r : SummaryRow) (tok : String) :
    ((check_row r).os_query_table.length +
       (check_row r).os_query_table_removed_items.length = r.os_query_table.length) ∧
    ((check_row r).query_attributes.length +
       (check_row r).query_attributes_removed_items.length = r.query_attributes.length) ∧
    ((check_row r).os_query_table.count tok +
       (check_row r).os_query_table_removed_items.count tok = r.os_query_table.count tok) ∧
    ((check_row r).query_attributes.count tok +
       (check_row r).query_attributes_removed_items.count tok = r.query_attributes.count tok) := by
  refine ⟨?_, ?_, ?_, ?_⟩
  · exact length_filter_pair r.os_query_table _
  · exact length_filter_pair r.query_attributes _
  · exact count_filter_pair r.os_query_table _ tok
  · exact count_filter_pair r.query_attributes _ tok

/-- C4 counterexample: the attribute `"group"` contains the denylist
keyword `"GROUP"` under case-insensitive comparison, yet the fuzzy
quarantine (Python `str.find`, which is case-sensitive) does not remove
it — refuting the claim that attribute removal is case-insensitive
substring matching. -/
theorem C4_counterexample :
    containsCI "GROUP".toList "group".toList = true ∧
    (remove_invalid_elements_fuzzy_match_and_track ["group"] sql_keywords_to_log_and_remove).2 = [] ∧
    (remove_invalid_elements_fuzzy_match_and_track ["group"] sql_keywords_to_log_and_remove).1 = ["group"] := by
  exact ⟨by decide, by decide, by decide⟩

/-- C4 (amended): attribute quarantine removal is *case-sensitive*
substring matching — an attribute is removed iff some denylist keyword
occurs in it as an exact substring, and kept iff no keyword does; table
removal is exact membership in the denylist. -/
theorem C4_amended_case_sensitive_removal (lst : List String) (t : String) :
    (t ∈ (remove_invalid_elements_fuzzy_match_and_track lst sql_keywords_to_log_and_remove).2 ↔
      t ∈ lst ∧ ∃ kw ∈ sql_keywords_to_log_and_remove, containsExact kw.toList t.toList = true) ∧
    (t ∈ (remove_invalid_elements_fuzzy_match_and_track lst sql_keywords_to_log_and_remove).1 ↔
      t ∈ lst ∧ ∀ kw ∈ sql_keywords_to_log_and_remove, containsExact kw.toList t.toList = false) ∧
    (t ∈ (remove_invalid_elements_and_track lst sql_keywords_to_log_and_remove).2 ↔
      t ∈ lst ∧ t ∈ sql_keywords_to_log_and_remove) := by
  unfold remove_invalid_elements_fuzzy_match_and_track remove_invalid_elements_and_track pyFindHit
  refine ⟨?_, ?_, ?_⟩
  · simp [List.mem_filter]
  · simp [List.mem_filter]
  · simp [List.mem_filter]

/-- C7: the code assigns the letterless token `"123"` to the
`alphabetical_attributes` bucket (the regex `^[a-zA-Z0-9]+$` does not
require a letter), not to `non_alphabetic` as the claim (and the
function's own docstring) state. -/
theorem C7_letterless_token_misclassified :
    hasLetter "123" = false ∧
    sort_attributes_by_characters ["123"] =
      { alphabetical_attributes := ["123"], alphabetical_and_non_numeric := [],
        non_alphabetic := [], not_sorted := [] } := by
  exact ⟨by decide, by decide⟩

/-- C8: the four classification buckets partition the input vocabulary —
every token of the input is in at least one bucket (and conversely), and
no token is in two different buckets. -/
theorem C8_buckets_partition (l : List String) (s : String) :
    (s ∈ l ↔ (s ∈ (sort_attributes_by_characters l).alphabetical_attributes ∨
      s ∈ (sort_attributes_by_characters l).alphabetical_and_non_numeric ∨
      s ∈ (sort_attributes_by_characters l).non_alphabetic ∨
      s ∈ (sort_attributes_by_characters l).not_sorted)) ∧
    ¬(s ∈ (sort_attributes_by_characters l).alphabetical_attributes ∧
      s ∈ (sort_attributes_by_characters l).alphabetical_and_non_numeric) ∧
    ¬(s ∈ (sort_attributes_by_characters l).alphabetical_attributes ∧
      s ∈ (sort_attributes_by_characters l).non_alphabetic) ∧
    ¬(s ∈ (sort_attributes_by_characters l).alphabetical_attributes ∧
      s ∈ (sort_attributes_by_characters l).not_sorted) ∧
    ¬(s ∈ (sort_attributes_by_characters l).alphabetical_and_non_numeric ∧
      s ∈ (sort_attributes_by_characters l).non_alphabetic) ∧
    ¬(s ∈ (sort_attributes_by_characters l).alphabetical_and_non_numeric ∧
      s ∈ (sort_attributes_by_characters l).not_sorted) ∧
    ¬(s ∈ (sort_attributes_by_characters l).non_alphabetic ∧
      s ∈ (sort_attributes_by_characters l).not_sorted) := by
  unfold sort_attributes_by_characters
  by_cases h1 : isRuleOne s = true <;> by_cases h2 : isRuleTwo s = true <;>
    by_cases h3 : isRuleThree s = true <;>
      simp [List.mem_filter, h1, h2, h3]

/-- C5: the table-analysis section builder never consults its boolean
toggle — with `summarize_tables_in_dataset = false` (the very
configuration `load_and_process_columns` passes, since the call site
supplies only three positional `True`s) the section is still a populated
object with its three keys, not the empty object required by the fixed
report shape. -/
theorem C5_table_section_ignores_toggle :
    jsonIsEmptyObj (add_osquery_table_analysis_summary false []) = false ∧
    jsonTopKeys (add_osquery_table_analysis_summary false []) =
      ["unique_table_list", "total_table_query_count", "table_counts_by_queries"] ∧
    (∀ df : List CheckedSummaryRow,
      add_osquery_table_analysis_summary false df = add_osquery_table_analysis_summary true df) := by
  exact ⟨rfl, rfl, fun _ => rfl⟩

/-- C6: with the dataset-statistics toggle enabled, the value stored
under `os_query_data_analysis_stats` is a JSON *array* (the trailing
comma in the source makes `stats` a one-element tuple), not the JSON
object the claim describes. -/
theorem C6_stats_section_is_array :
    jsonIsArr (add_osquery_data_stats_summary true []) = true ∧
    jsonIsObj (add_osquery_data_stats_summary true []) = false := by
  exact ⟨rfl, rfl⟩

theorem scanCaseWhen_eq_nil (fuel : Nat) :
    ∀ (s : List Char), containsExact "END".toList s = false → scanCaseWhen fuel s = [] := by
  induction fuel with
  | zero => intro s _; cases s <;> rfl
  | succ fuel ih =>
    intro s h
    cases s with
    | nil => rfl
    | cons c cs =>
      have hm : matchCaseWhen (c :: cs) = none := by
        cases hmm : matchCaseWhen (c :: cs) with
        | none => rfl
        | some r =>
          rw [matchCaseWhen_containsEnd _ r hmm] at h
          exact absurd h (by simp)
      have hcs : containsExact "END".toList cs = false := by
        by_contra hne
        have hx : containsExact "END".toList cs = true := by
          cases hy : containsExact "END".toList cs
          · exact absurd hy hne
          · rfl
        rw [containsExact_of_tail _ c cs hx] at h
        exact absurd h (by simp)
      simp only [scanCaseWhen, hm]
      exact ih cs hcs

/-- C10: the Extractor is total — `extract_sql_details` (including
`extract_attribute_names` and, in particular, the index access after
splitting a dot-containing clause, whose split always has at least two
parts) never signals an exception on any input; input with no `FROM`
yields empty tables and attributes, input with no `SELECT` yields empty
attributes, and input with no `END` (an unterminated `CASE`) yields
empty case descriptions. -/
theorem C10_extractor_never_raises (sql : String) :
    (extract_sql_details sql).isSome = true ∧
    (containsCI "from".toList sql.toList = false →
      tables_queried_of sql = [] ∧ extract_attribute_names sql = some []) ∧
    (containsCI "select".toList sql.toList = false → extract_attribute_names sql = some []) ∧
    (containsExact "END".toList sql.toList = false → new_attributes_of sql = []) := by
  refine ⟨extract_sql_details_isSome sql, ?_, ?_, ?_⟩
  · intro h
    constructor
    · unfold tables_queried_of
      rw [scanFromW_eq_nil _ _ h]
      rfl
    · unfold extract_attribute_names selectItems
      rw [scanSelectFrom_eq_nil "from".toList _ (Or.inr rfl) _ h]
      rfl
  · intro h
    unfold extract_attribute_names selectItems
    rw [scanSelectFrom_eq_nil "select".toList _ (Or.inl rfl) _ h]
    rfl
  · intro h
    unfold new_attributes_of
    rw [scanCaseWhen_eq_nil _ _ h]
    rfl

/-- C10 witness: the degradation conjuncts of
`C10_extractor_never_raises` instantiated at the concrete non-SQL input
`"hello"`. -/
theorem C10_extractor_never_raises_witness :
    (extract_sql_details "hello").isSome = true ∧
    (tables_queried_of "hello" = [] ∧ extract_attribute_names "hello" = some []) ∧
    extract_attribute_names "hello" = some [] ∧ new_attributes_of "hello" = [] :=
  ⟨(C10_extractor_never_raises "hello").1,
   (C10_extractor_never_raises "hello").2.1 (by decide),
   (C10_extractor_never_raises "hello").2.2.1 (by decide),
   (C10_extractor_never_raises "hello").2.2.2 (by decide)⟩

/-- C9 counterexample: for the clause `a.b.c` the Extractor emits `"b"`
(element 1 of the dot split), not the substring `"b.c"` after the first
dot as the claim states. -/
theorem C9_counterexample :
    extract_attribute_names "SELECT a.b.c FROM t" = some ["b"] ∧
    extract_attribute_names "SELECT a.b.c FROM t" ≠ some ["b.c"] := by
  exact ⟨by decide, by decide⟩

/-- C9 (amended): for every comma-separated SELECT clause that contains a
`.` but no `*` and no `AS` keyword, the Extractor emits the segment of
the clause strictly between the first and second dot — element 1 of
splitting on `.` (for `a.b.c` this is `b`, not `b.c`). -/
theorem C9_amended_dot_clause (item : List Char)
    (hdot : containsChar '.' item = true)
    (hstar : containsChar '*' item = false)
    (has : hasASKeyword item = false) :
    attributeOfItem item = some [String.mk ((splitOnChar '.' item).getD 1 [])] := by
  unfold attributeOfItem
  rw [if_neg (by simp [hstar]), if_neg (by simp [has]), if_pos (by simp [hdot])]
  have hlen := two_le_splitOnChar_length '.' item hdot
  cases hs : splitOnChar '.' item with
  | nil => rw [hs] at hlen; simp at hlen
  | cons x t =>
    cases t with
    | nil => rw [hs] at hlen; simp at hlen
    | cons y tt => simp [List.getD]

/-- C9 witness: `C9_amended_dot_clause` applied to the concrete clause
`a.b.c`, whose emitted attribute evaluates to `"b"`. -/
theorem C9_amended_dot_clause_witness :
    attributeOfItem "a.b.c".toList =
      some [String.mk ((splitOnChar '.' "a.b.c".toList).getD 1 [])] ∧
    String.mk ((splitOnChar '.' "a.b.c".toList).getD 1 []) = "b" :=
  ⟨C9_amended_dot_clause "a.b.c".toList (by decide) (by decide) (by decide), by decide⟩

/-- A record whose payload decodes to a named query with an empty command. -/
def sampleDecodedRow : RawRecord :=
  { Query := QueryPayload.decoded
      { name := some "Q1", command := some "", principalType := none,
        queryId := none, queryType := none, categories := none }
    PossibleCases := none
    CustomerID := ""
    Region := ""
    CreatedAtUTC := "" }

/-- A record whose `Query` payload fails JSON decoding. -/
def sampleInvalidRow : RawRecord :=
  { Query := QueryPayload.invalidJson
    PossibleCases := none
    CustomerID := ""
    Region := ""
    CreatedAtUTC := "" }

/-- C1 counterexample: a dataset of two records, one with a valid payload
and one whose payload fails JSON decoding, has `total_record_count = 2`,
but the frequencies over all produced query groups sum to `1`: the
malformed record is dropped by the summarization pass, refuting the claim
that the sum includes records whose payload fails decoding. -/
theorem C1_counterexample :
    (summarize_case_query_data [sampleDecodedRow, sampleInvalidRow]).map query_counter
      = some 1 ∧
    [sampleDecodedRow, sampleInvalidRow].length = 2 ∧
    (summarize_case_query_data [sampleDecodedRow, sampleInvalidRow]).map query_counter
      ≠ some ([sampleDecodedRow, sampleInvalidRow].length) := by
  exact ⟨by decide, by decide, by decide⟩

/-- C1 (amended): provided at least one record decodes (otherwise the
summary dataframe has no columns and the quarantine pass raises
`KeyError`), the sum of `frequency_of_execution` over all query groups
equals the number of records whose `Query` payload is non-null and
decodes successfully — records with null or undecodable payloads are
excluded from the total. -/
theorem C1_amended_frequency_sum (rows : List RawRecord)
    (h : rows.any (fun r => r.Query.isDecoded) = true) :
    ∃ srows, summarize_case_query_data rows = some srows ∧
      query_counter srows = (rows.filter (fun r => r.Query.isDecoded)).length := by
  obtain ⟨collected, hc, hlen⟩ := query_summary_rows_spec rows
  have hne : collected ≠ [] := by
    intro hnil
    subst hnil
    obtain ⟨x, hx, hd⟩ := List.any_eq_true.mp h
    have hmem : x ∈ rows.filter (fun r => r.Query.isDecoded) :=
      List.mem_filter.mpr ⟨hx, hd⟩
    have h0 : (rows.filter (fun r => r.Query.isDecoded)).length = 0 := hlen.symm
    rw [List.length_eq_zero] at h0
    rw [h0] at hmem
    exact absurd hmem (List.not_mem_nil x)
  refine ⟨collected.map check_row, ?_, ?_⟩
  · unfold summarize_case_query_data
    rw [hc]
    cases collected with
    | nil => exact absurd rfl hne
    | cons c cs => rfl
  · rw [query_counter_eq_length, List.length_map, hlen]

/-- C1 witness: `C1_amended_frequency_sum` at the concrete two-record
dataset with one valid and one malformed payload. -/
theorem C1_amended_frequency_sum_witness :
    ([sampleDecodedRow, sampleInvalidRow].any (fun r => r.Query.isDecoded) = true) ∧
    ∃ srows, summarize_case_query_data [sampleDecodedRow, sampleInvalidRow] = some srows ∧
      query_counter srows =
        ([sampleDecodedRow, sampleInvalidRow].filter (fun r => r.Query.isDecoded)).length :=
  ⟨by decide, C1_amended_frequency_sum [sampleDecodedRow, sampleInvalidRow] (by decide)⟩

/-- C2 counterexample: with one valid and one malformed record, the
summarization output has one row, not two — the malformed row is *not*
retained with empty extraction facts, so row-count parity with the
dataset is violated. -/
theorem C2_counterexample :
    (summarize_case_query_data [sampleDecodedRow, sampleInvalidRow]).map List.length
      = some 1 ∧
    (summarize_case_query_data [sampleDecodedRow, sampleInvalidRow]).map List.length
      ≠ some ([sampleDecodedRow, sampleInvalidRow].length) := by
  exact ⟨by decide, by decide⟩

/-- C2 (amended): on JSON decode failure the per-column extractors
substitute the documented sentinels and the Extractor is not invoked,
but the summarization pass *skips* the row entirely (`continue`): the
summary rows of a dataset with the malformed row prepended are exactly
those of the dataset without it, so row-count parity with the dataset is
not preserved for downstream grouping. -/
theorem C2_amended_decode_failure (rows : List RawRecord) (r : RawRecord)
    (h : r.Query = QueryPayload.invalidJson) :
    query_summary_rows (r :: rows) = query_summary_rows rows ∧
    summarize_case_query_data (r :: rows) = summarize_case_query_data rows ∧
    extract_name r.Query = "Unnamed" ∧
    extract_command r.Query = "\"SQL statement not available\"" ∧
    extract_principal_type r.Query = "Type not available" ∧
    extract_query_id r.Query = "ID not available" ∧
    extract_query_type r.Query = "Type not available" ∧
    extract_query_categories r.Query = "Categories not available" := by
  have h1 : query_summary_rows (r :: rows) = query_summary_rows rows := by
    simp [query_summary_rows, h]
  refine ⟨h1, ?_, ?_, ?_, ?_, ?_, ?_, ?_⟩
  · unfold summarize_case_query_data
    rw [h1]
  · rw [h]
    rfl
  · rw [h]
    rfl
  · rw [h]
    rfl
  · rw [h]
    rfl
  · rw [h]
    rfl
  · rw [h]
    rfl

/-- C2 witness: `C2_amended_decode_failure` at the concrete malformed
record prepended to a one-record dataset. -/
theorem C2_amended_decode_failure_witness :
    query_summary_rows (sampleInvalidRow :: [sampleDecodedRow])
      = query_summary_rows [sampleDecodedRow] ∧
    summarize_case_query_data (sampleInvalidRow :: [sampleDecodedRow])
      = summarize_case_query_data [sampleDecodedRow] ∧
    extract_name sampleInvalidRow.Query = "Unnamed" ∧
    extract_command sampleInvalidRow.Query = "\"SQL statement not available\"" ∧
    extract_principal_type sampleInvalidRow.Query = "Type not available" ∧
    extract_query_id sampleInvalidRow.Query = "ID not available" ∧
    extract_query_type sampleInvalidRow.Query = "Type not available" ∧
    extract_query_categories sampleInvalidRow.Query = "Categories not available" :=
  C2_amended_decode_failure [sampleDecodedRow] sampleInvalidRow rfl

